import Mathlib

/-!
# Verification of the `flutter_rust_bridge` codegen core (shallow embedding)

This file embeds, in Lean 4, the parts of the `frb_codegen` crate that the
claims under scrutiny are about:

* `codegen/parser/hir/hierarchical/mod.rs` — the HIR resolution driver
  `parse`, which maps `parse_crate` over every crate of a `HirRawPack` and
  collects the results into a `HirPack` (failing whole on the first error);
* `commands/command_runner.rs` — `execute_command`, `call_shell`,
  `check_exit_code`;
* `commands/format_dart.rs` / `commands/format_rust.rs` — the formatter
  wrappers and `normalize_windows_unc_paths`;
* the `pub_use` re-export resolver, whose code is not part of the given
  corpus and is therefore modelled from the spec.

External effects (process spawning, the filesystem) are embedded as explicit
oracle parameters: a spawned process's outcome is an `Except String Output`
value supplied to the function, and functions that spawn processes also
return the number of processes they launched, so that "launched exactly
once" claims are statable.  Rust `anyhow::Result` becomes `Except String`;
`PathBuf` becomes `MPath`, which is either a valid UTF-8 path string or a
path that cannot be converted to a string.
-/

/-- Model of Rust `std::process::ExitStatus`: all the code under scrutiny
inspects is `status.success()`. -/
structure ExitStatusM where
  success : Bool
deriving DecidableEq, Repr

/-- Model of Rust `std::process::Output`.  `stdout` and `stderr` are stored
as the strings their lossy UTF-8 conversion yields. -/
structure Output where
  status : ExitStatusM
  stdout : String
  stderr : String
deriving DecidableEq, Repr

/-- Model of Rust `PathBuf`: either a path convertible to a UTF-8 string, or
one that is not (on which `path_to_string` fails). -/
inductive MPath where
  | valid (s : String)
  | invalid
deriving DecidableEq, Repr

/-- Modelled from the spec and the call sites: `utils::path_utils::path_to_string`
(not part of the given corpus) converts a path to a string and fails exactly
when the path cannot be converted. -/
def path_to_string : MPath → Except String String
  | MPath.valid s => Except.ok s
  | MPath.invalid => Except.error "path_to_string failed"

/-- Model of `Path::to_string_lossy`, used only for display strings. -/
def to_string_lossy : MPath → String
  | MPath.valid s => s
  | MPath.invalid => "\xef\xbf\xbd"

/-- Rust's `collect::<Result<Vec<_>, _>>()` over a mapped iterator: stop at
the first error, otherwise collect all successes in order. -/
def collectResults {α β ε : Type} (f : α → Except ε β) : List α → Except ε (List β)
  | [] => Except.ok []
  | a :: rest =>
    match f a with
    | Except.error e => Except.error e
    | Except.ok b =>
      match collectResults f rest with
      | Except.error e => Except.error e
      | Except.ok bs => Except.ok (b :: bs)

/-- Embedding of `commands/command_runner.rs::check_exit_code`: fail with the process's
stderr attached when the exit status is not success. -/
def check_exit_code (res : Output) : Except String Unit :=
  if !res.status.success then
    Except.error ("Command execution failed: " ++ res.stderr)
  else
    Except.ok ()

/-- Embedding of `commands/command_runner.rs::execute_command`.  `spawn` is the oracle for
what `cmd.output()` returns for this invocation (error = the process could
not be launched).  The second component of the result counts how many times
the external process was launched.  Mirrors the source: the working
directory, when present, is converted with `path_to_string` (propagating its
error before any spawn); a spawn failure is wrapped with the bin/args
context; a non-success exit status is only logged and the `Output` is
returned as `Ok`. -/
def execute_command (spawn : Except String Output) (bin : String)
    (args : List MPath) (current_dir : Option MPath) : Except String Output × Nat :=
  let args_display := String.intercalate " " (args.map to_string_lossy)
  match current_dir with
  | some d =>
    match path_to_string d with
    | Except.error e => (Except.error e, 0)
    | Except.ok _ =>
      match spawn with
      | Except.error _ =>
        (Except.error ("\"" ++ bin ++ "\" \"" ++ args_display ++ "\" failed"), 1)
      | Except.ok out => (Except.ok out, 1)
  | none =>
    match spawn with
    | Except.error _ =>
      (Except.error ("\"" ++ bin ++ "\" \"" ++ args_display ++ "\" failed"), 1)
    | Except.ok out => (Except.ok out, 1)

/-- Embedding of `commands/command_runner.rs::ShellMode`. -/
inductive ShellMode where
  | Powershell
  | Cmd
  | Sh
deriving DecidableEq, Repr

/-- The bin and argument list `call_shell` hands to `execute_command`, as a
pure function of the shell mode, the platform, and the Debug formatting of
the command words (`format!("\x7bsection:?\x7d")` on each `PathBuf`,
space-joined).  Mirrors `commands/command_runner.rs::call_shell` lines
90–106: Powershell gets `-noprofile -command "& <cmd>"`, Cmd gets
`/c <cmd>`, Sh gets `-c <cmd>`; a missing mode defaults to Powershell on
Windows and Sh elsewhere. -/
def shell_invocation (dbgQuote : MPath → String) (isWindows : Bool)
    (cmd : List MPath) (mode : Option ShellMode) : String × List String :=
  let cmdStr := String.intercalate " " (cmd.map dbgQuote)
  let m := mode.getD (if isWindows then ShellMode.Powershell else ShellMode.Sh)
  match m with
  | ShellMode.Powershell => ("powershell", ["-noprofile", "-command", "& " ++ cmdStr])
  | ShellMode.Cmd => ("cmd", ["/c", cmdStr])
  | ShellMode.Sh => ("sh", ["-c", cmdStr])

/-- Embedding of `commands/command_runner.rs::call_shell`: joins the command words into a
single Debug-quoted string, picks the shell from `mode` (with a
platform-dependent default), and runs it through `execute_command`.
`dbgQuote` abstracts Rust's `Debug` formatting of a `PathBuf`; `spawn` is
the launch oracle as in `execute_command`. -/
def call_shell (dbgQuote : MPath → String) (isWindows : Bool)
    (spawn : Except String Output) (cmd : List MPath) (mode : Option ShellMode)
    (pwd : Option MPath) : Except String Output × Nat :=
  let inv := shell_invocation dbgQuote isWindows cmd mode
  execute_command spawn inv.1 (inv.2.map MPath.valid) pwd

/-- Embedding of `commands/format_dart.rs::normalize_windows_unc_paths`: per path, convert
to a string (failing on the first inconvertible path) and normalize; collect
as in `collect::<Result<Vec>>`.  `nwup` abstracts
`utils::path_utils::normalize_windows_unc_path` (not part of the given
corpus), a total string-to-string function. -/
def normalize_windows_unc_paths (nwup : String → String) (paths : List MPath) :
    Except String (List MPath) :=
  collectResults
    (fun p =>
      match path_to_string p with
      | Except.error e => Except.error e
      | Except.ok s => Except.ok (MPath.valid (nwup s)))
    paths

/-- Embedding of `commands/format_dart.rs::format_dart`: normalize the paths, run
`dart format --line-length <n> <paths...>` through `call_shell` (no working
directory, no envs), and `check_exit_code` the result. -/
def format_dart (nwup : String → String) (dbgQuote : MPath → String)
    (isWindows : Bool) (spawn : Except String Output) (path : List MPath)
    (line_length : Nat) (shell_mode : Option ShellMode) : Except String Unit :=
  match normalize_windows_unc_paths nwup path with
  | Except.error e => Except.error e
  | Except.ok npath =>
    let args := [MPath.valid "dart", MPath.valid "format",
      MPath.valid "--line-length", MPath.valid (toString line_length)] ++ npath
    match (call_shell dbgQuote isWindows spawn args shell_mode none).1 with
    | Except.error e => Except.error e
    | Except.ok res => check_exit_code res

/-- Embedding of `commands/format_rust.rs::format_rust`: normalize the paths, run
`rustfmt --edition 2018 <paths...>` through `call_shell`, and
`check_exit_code` the result. -/
def format_rust (nwup : String → String) (dbgQuote : MPath → String)
    (isWindows : Bool) (spawn : Except String Output) (path : List MPath)
    (shell_mode : Option ShellMode) : Except String Unit :=
  match normalize_windows_unc_paths nwup path with
  | Except.error e => Except.error e
  | Except.ok npath =>
    let args := [MPath.valid "rustfmt", MPath.valid "--edition",
      MPath.valid "2018"] ++ npath
    match (call_shell dbgQuote isWindows spawn args shell_mode none).1 with
    | Except.error e => Except.error e
    | Except.ok res => check_exit_code res

/-- Embedding of `codegen/ir/hir/raw.rs::HirRawPack`, modelled from the spec: a mapping
from crate name to that crate's raw syntax tree (`σ` abstracts `syn::File`).
The spec fixes the map to be keyed by crate name and order-preserving
("item order within a module is preserved as declared; map keys use
crate/module names"), so it is embedded as an association list. -/
structure HirRawPack (σ : Type) where
  crates : List (String × σ)
deriving DecidableEq, Repr

/-- Embedding of `codegen/ir/hir/hierarchical/pack.rs::HirPack`, modelled from the spec:
a mapping from crate name to the resolved crate model (`κ` abstracts
`HirCrate`), keyed and ordered like `HirRawPack`. -/
structure HirPack (κ : Type) where
  crates : List (String × κ)
deriving DecidableEq, Repr

/-- Embedding of `codegen/parser/hir/hierarchical/mod.rs::parse` (lines 15–32): map
`parse_crate` over every `(crate_name, syn_file)` entry of the raw pack,
collect into `Result<Vec<_>>` (first error aborts the whole stage), and
wrap the collected pairs as a `HirPack`.  `parse_crate` (whose body is not
part of the given corpus) is abstracted as the function parameter `pc`,
taking the resolver configuration `config` (of abstract type `γ`), the
syn file and the crate name, exactly as at the call site. -/
def parse {γ σ κ : Type} (pc : γ → σ → String → Except String κ) (config : γ)
    (hir_raw : HirRawPack σ) : Except String (HirPack κ) :=
  match collectResults
      (fun cr =>
        match pc config cr.2 cr.1 with
        | Except.error e => Except.error e
        | Except.ok k => Except.ok (cr.1, k))
      hir_raw.crates with
  | Except.error e => Except.error e
  | Except.ok crates => Except.ok { crates := crates }

/-- Model of a resolved HIR item, the endpoint of a re-export chain.  Only
its identity matters to the claims, so it carries just a name. -/
structure HirItem where
  name : String
deriving DecidableEq, Repr

/-- Errors of hierarchical resolution named by the spec. -/
inductive ResolutionError where
  | CyclicReexport
  | UnknownMirrorTarget
  | UnknownReexportTarget
deriving DecidableEq, Repr

/-- Entry of a module's name table: either an item defined here, or a
`pub use` re-export edge naming its target ("a non-owning reference,
resolved by path lookup, not by copy"). -/
inductive ModuleEntry where
  | item (it : HirItem)
  | reexport (target : String)
deriving DecidableEq, Repr

/-- Lookup in a name table held as an association list in declaration
order (first binding of a name wins). -/
def lookupEntry : List (String × ModuleEntry) → String → Option ModuleEntry
  | [], _ => none
  | (k, v) :: rest, n => if n = k then some v else lookupEntry rest n

/-- Helper lemma for termination: a successful lookup means the name is
among the table's keys. -/
theorem lookupEntry_mem_keys (env : List (String × ModuleEntry)) (n : String)
    (e : ModuleEntry) (h : lookupEntry env n = some e) : n ∈ env.map Prod.fst := by
  induction env with
  | nil => simp [lookupEntry] at h
  | cons kv rest ih =>
    rw [lookupEntry] at h
    by_cases hk : n = kv.1
    · simp [hk]
    · simp only [hk, if_false] at h
      simp [ih h]

/-- Modelled from the spec: the `pub_use` re-export resolver (module
`codegen/parser/hir/hierarchical/pub_use.rs`, not part of the given corpus).
Per the spec, re-export edges are "lazy, name-keyed lookup edges resolved on
demand with cycle detection via a visited-set during traversal": starting
from a name, follow `reexport` edges through the table, extending the
visited set at each step; revisiting a name is `CyclicReexport`, reaching an
`item` entry resolves to that item. -/
def resolveReexport (env : List (String × ModuleEntry)) (visited : List String)
    (name : String) : Except ResolutionError HirItem :=
  if hv : name ∈ visited then
    Except.error ResolutionError.CyclicReexport
  else
    match hl : lookupEntry env name with
    | none => Except.error ResolutionError.UnknownReexportTarget
    | some (ModuleEntry.item it) => Except.ok it
    | some (ModuleEntry.reexport tgt) => resolveReexport env (name :: visited) tgt
termination_by ((env.map Prod.fst).toFinset \ visited.toFinset).card
decreasing_by
  apply Finset.card_lt_card
  have hmem : name ∈ env.map Prod.fst := lookupEntry_mem_keys env name _ hl
  constructor
  · intro x hx
    simp only [Finset.mem_sdiff, List.mem_toFinset, List.toFinset_cons,
      Finset.mem_insert] at hx ⊢
    exact ⟨hx.1, fun hxv => hx.2 (Or.inr hxv)⟩
  · intro hsub
    have hn : name ∈ (env.map Prod.fst).toFinset \ visited.toFinset := by
      simp only [Finset.mem_sdiff, List.mem_toFinset]
      exact ⟨hmem, hv⟩
    have := hsub hn
    rw [List.toFinset_cons] at this
    exact (Finset.mem_sdiff.mp this).2 (Finset.mem_insert_self name visited.toFinset)

/-- Predicate: the list of names is a `pub use` chain through `env` ending
at the item `it` — every name re-exports the next, and the last name is
bound to `it` itself. -/
def chainLinks (env : List (String × ModuleEntry)) : List String → HirItem → Prop
  | [], _ => False
  | [n], it => lookupEntry env n = some (ModuleEntry.item it)
  | n :: m :: rest, it =>
    lookupEntry env n = some (ModuleEntry.reexport m) ∧ chainLinks env (m :: rest) it

/-- Predicate: the list of names is a cyclic chain of re-export edges
through `env` — every name re-exports the next, and the last name
re-exports `first` (the cycle's entry point). -/
def cycleLinks (env : List (String × ModuleEntry)) (first : String) : List String → Prop
  | [] => False
  | [n] => lookupEntry env n = some (ModuleEntry.reexport first)
  | n :: m :: rest =>
    lookupEntry env n = some (ModuleEntry.reexport m) ∧ cycleLinks env first (m :: rest)

/-- Example name table used to instantiate the re-export theorems: `a` and
`b` re-export each other (a cycle), while `x → y → z` is an acyclic chain
of length 3 ending at a real item. -/
def envEx : List (String × ModuleEntry) :=
  [("a", ModuleEntry.reexport "b"), ("b", ModuleEntry.reexport "a"),
   ("x", ModuleEntry.reexport "y"), ("y", ModuleEntry.reexport "z"),
   ("z", ModuleEntry.item { name := "real" })]

/-- Per-path action of `normalize_windows_unc_paths` on a convertible path:
convert to a string, normalize, wrap back into a path. -/
def normalize_one_path (nwup : String → String) : MPath → MPath
  | MPath.valid s => MPath.valid (nwup s)
  | MPath.invalid => MPath.invalid

/-- Example `parse_crate` used to instantiate the `parse` theorems: the syn
file is a `Bool` saying whether the crate resolves. -/
def pcEx : Unit → Bool → String → Except String Unit :=
  fun _ b _ => if b then Except.ok () else Except.error "bad"

theorem resolveReexport_visited (env : List (String × ModuleEntry))
    (visited : List String) (name : String) (h : name ∈ visited) :
    resolveReexport env visited name = Except.error ResolutionError.CyclicReexport := by
  rw [resolveReexport]
  simp [h]

theorem resolveReexport_step (env : List (String × ModuleEntry))
    (visited : List String) (name : String) (h : name ∉ visited) :
    resolveReexport env visited name =
      (match lookupEntry env name with
      | none => Except.error ResolutionError.UnknownReexportTarget
      | some (ModuleEntry.item it) => Except.ok it
      | some (ModuleEntry.reexport tgt) => resolveReexport env (name :: visited) tgt) := by
  rw [resolveReexport]
  simp only [h, dite_false]
  cases hlv : lookupEntry env name with
  | none => rfl
  | some e => cases e <;> rfl

theorem resolveReexport_chainLinks (env : List (String × ModuleEntry)) :
    ∀ (chain : List String) (it : HirItem) (visited : List String) (n : String),
      chain.Nodup → chainLinks env chain it → (∀ x ∈ chain, x ∉ visited) →
      chain.head? = some n → resolveReexport env visited n = Except.ok it := by
  intro chain
  induction chain with
  | nil =>
    intro it visited n _ hlinks _ _
    exact absurd hlinks (by simp [chainLinks])
  | cons a tail ih =>
    intro it visited n hnd hlinks hfresh hhead
    have hn : a = n := by simpa using hhead
    subst hn
    have hna : a ∉ visited := hfresh a (List.mem_cons_self a tail)
    cases tail with
    | nil =>
      have hl : lookupEntry env a = some (ModuleEntry.item it) := hlinks
      rw [resolveReexport_step env visited a hna, hl]
    | cons b rest =>
      obtain ⟨hl, hrest⟩ := hlinks
      rw [resolveReexport_step env visited a hna, hl]
      apply ih it (a :: visited) b (List.nodup_cons.mp hnd).2 hrest
      · intro x hx hxv
        rcases List.mem_cons.mp hxv with h1 | h2
        · exact (List.nodup_cons.mp hnd).1 (h1 ▸ hx)
        · exact hfresh x (List.mem_cons_of_mem a hx) h2
      · rfl

theorem resolveReexport_cycle_aux (env : List (String × ModuleEntry)) :
    ∀ (cycle : List String) (first : String) (visited : List String) (n : String),
      cycle.Nodup → cycleLinks env first cycle → (∀ x ∈ cycle, x ∉ visited) →
      first ∈ visited → cycle.head? = some n →
      resolveReexport env visited n = Except.error ResolutionError.CyclicReexport := by
  intro cycle
  induction cycle with
  | nil =>
    intro first visited n _ hlinks _ _ _
    exact absurd hlinks (by simp [cycleLinks])
  | cons a tail ih =>
    intro first visited n hnd hlinks hfresh hfirst hhead
    have hn : a = n := by simpa using hhead
    subst hn
    have hna : a ∉ visited := hfresh a (List.mem_cons_self a tail)
    cases tail with
    | nil =>
      have hl : lookupEntry env a = some (ModuleEntry.reexport first) := hlinks
      rw [resolveReexport_step env visited a hna, hl]
      exact resolveReexport_visited env (a :: visited) first (List.mem_cons_of_mem a hfirst)
    | cons b rest =>
      obtain ⟨hl, hrest⟩ := hlinks
      rw [resolveReexport_step env visited a hna, hl]
      apply ih first (a :: visited) b (List.nodup_cons.mp hnd).2 hrest
      · intro x hx hxv
        rcases List.mem_cons.mp hxv with h1 | h2
        · exact (List.nodup_cons.mp hnd).1 (h1 ▸ hx)
        · exact hfresh x (List.mem_cons_of_mem a hx) h2
      · exact List.mem_cons_of_mem a hfirst
      · rfl

theorem lookupEntry_perm (env₁ env₂ : List (String × ModuleEntry))
    (hperm : env₁.Perm env₂) :
    ∀ n, (env₁.map Prod.fst).Nodup → lookupEntry env₁ n = lookupEntry env₂ n := by
  induction hperm with
  | nil => intro n _; rfl
  | cons kv h ih =>
    intro n hkeys
    obtain ⟨k, v⟩ := kv
    rw [lookupEntry, lookupEntry]
    by_cases hk : n = k
    · simp [hk]
    · simp only [hk, if_false]
      apply ih n
      simp only [List.map_cons, List.nodup_cons] at hkeys
      exact hkeys.2
  | swap x y l =>
    intro n hkeys
    obtain ⟨k₁, v₁⟩ := x
    obtain ⟨k₂, v₂⟩ := y
    have hkk : k₂ ≠ k₁ := by
      simp only [List.map_cons, List.nodup_cons, List.mem_cons] at hkeys
      exact fun h => hkeys.1 (Or.inl h)
    rw [lookupEntry, lookupEntry, lookupEntry, lookupEntry]
    by_cases h1 : n = k₂
    · by_cases h2 : n = k₁
      · exact absurd (h1.symm.trans h2) hkk
      · simp [h1, h2, hkk]
    · by_cases h2 : n = k₁
      · simp [h1, h2, hkk.symm]
      · simp [h1, h2]
  | trans h₁ h₂ ih₁ ih₂ =>
    intro n hkeys
    have hkeys₂ := ((h₁.map Prod.fst).nodup_iff).mp hkeys
    rw [ih₁ n hkeys, ih₂ n hkeys₂]

theorem chainLinks_congr (env₁ env₂ : List (String × ModuleEntry))
    (hlook : ∀ n, lookupEntry env₁ n = lookupEntry env₂ n) :
    ∀ (chain : List String) (it : HirItem),
      chainLinks env₁ chain it → chainLinks env₂ chain it := by
  intro chain
  induction chain with
  | nil => intro it h; exact h
  | cons a tail ih =>
    intro it h
    cases tail with
    | nil =>
      show lookupEntry env₂ a = some (ModuleEntry.item it)
      rw [← hlook a]
      exact h
    | cons b rest =>
      obtain ⟨hl, hrest⟩ := h
      exact ⟨by rw [← hlook a]; exact hl, ih it hrest⟩

theorem check_exit_code_ok_iff (res : Output) :
    check_exit_code res = Except.ok () ↔ res.status.success = true := by
  unfold check_exit_code
  cases h : res.status.success <;> simp

theorem check_exit_code_err (res : Output) (h : res.status.success = false) :
    check_exit_code res = Except.error ("Command execution failed: " ++ res.stderr) := by
  unfold check_exit_code
  simp [h]

theorem collectResults_ok_of_forall {α β ε : Type} (f : α → Except ε β) (g : α → β) :
    ∀ l : List α, (∀ a ∈ l, f a = Except.ok (g a)) →
      collectResults f l = Except.ok (l.map g) := by
  intro l
  induction l with
  | nil => intro _; rfl
  | cons a rest ih =>
    intro h
    rw [collectResults, h a (List.mem_cons_self a rest),
      ih (fun x hx => h x (List.mem_cons_of_mem a hx))]
    rfl

theorem collectResults_isOk_iff {α β ε : Type} (f : α → Except ε β) :
    ∀ l : List α,
      (∃ out, collectResults f l = Except.ok out) ↔ ∀ a ∈ l, ∃ b, f a = Except.ok b := by
  intro l
  induction l with
  | nil => simp [collectResults]
  | cons a rest ih =>
    rw [collectResults]
    cases hfa : f a with
    | error e =>
      simp only [List.mem_cons]
      constructor
      · intro ⟨out, hout⟩; exact absurd hout (by simp)
      · intro h
        obtain ⟨b, hb⟩ := h a (Or.inl rfl)
        rw [hfa] at hb
        exact absurd hb (by simp)
    | ok b =>
      cases hrest : collectResults f rest with
      | error e =>
        constructor
        · intro ⟨out, hout⟩; exact absurd hout (by simp)
        · intro h
          obtain ⟨out, hout⟩ := ih.mpr (fun x hx => h x (List.mem_cons_of_mem a hx))
          rw [hrest] at hout
          exact absurd hout (by simp)
      | ok bs =>
        constructor
        · intro _ x hx
          rcases List.mem_cons.mp hx with h1 | h2
          · exact ⟨b, h1 ▸ hfa⟩
          · exact ih.mp ⟨_, hrest⟩ x h2
        · intro _
          exact ⟨_, rfl⟩

theorem forall2_map_eq {A B C : Type} {R : A → B → Prop} (fa : A → C) (fb : B → C)
    (h : ∀ a b, R a b → fb b = fa a) :
    ∀ (l : List A) (out : List B), List.Forall₂ R l out → out.map fb = l.map fa := by
  intro l out hf
  induction hf with
  | nil => rfl
  | cons hr _ ih => simp [h _ _ hr, ih]

theorem collectResults_forall2 {α β ε : Type} (f : α → Except ε β) :
    ∀ (l : List α) (out : List β), collectResults f l = Except.ok out →
      List.Forall₂ (fun a b => f a = Except.ok b) l out := by
  intro l
  induction l with
  | nil =>
    intro out h
    rw [collectResults] at h
    cases h
    exact List.Forall₂.nil
  | cons a rest ih =>
    intro out h
    rw [collectResults] at h
    cases hfa : f a with
    | error e => rw [hfa] at h; exact absurd h (by simp)
    | ok b =>
      rw [hfa] at h
      cases hrest : collectResults f rest with
      | error e => rw [hrest] at h; exact absurd h (by simp)
      | ok bs =>
        rw [hrest] at h
        cases h
        exact List.Forall₂.cons hfa (ih bs hrest)

/-- C1: if resolving any crate of the `HirRawPack` fails, `parse` returns an
error and produces no `HirPack`; when it does return a pack, every input
crate resolved successfully — it never returns a pack of only the crates
that happened to resolve. -/
theorem parse_fails_fast_and_whole {γ σ κ : Type}
    (pc : γ → σ → String → Except String κ) (config : γ) (hir_raw : HirRawPack σ) :
    ((∃ cr ∈ hir_raw.crates, ∃ e, pc config cr.2 cr.1 = Except.error e) →
      ∃ e, parse pc config hir_raw = Except.error e) ∧
    (∀ pack, parse pc config hir_raw = Except.ok pack →
      ∀ cr ∈ hir_raw.crates, ∃ k, pc config cr.2 cr.1 = Except.ok k) := by
  constructor
  · intro ⟨cr, hcr, e, he⟩
    rw [parse]
    cases hcoll : collectResults
        (fun cr =>
          match pc config cr.2 cr.1 with
          | Except.error e => Except.error e
          | Except.ok k => Except.ok (cr.1, k))
        hir_raw.crates with
    | error e' => exact ⟨e', rfl⟩
    | ok l =>
      exfalso
      obtain ⟨b, hb⟩ := (collectResults_isOk_iff _ hir_raw.crates).mp ⟨l, hcoll⟩ cr hcr
      rw [he] at hb
      exact absurd hb (by simp)
  · intro pack hpack cr hcr
    rw [parse] at hpack
    cases hcoll : collectResults
        (fun cr =>
          match pc config cr.2 cr.1 with
          | Except.error e => Except.error e
          | Except.ok k => Except.ok (cr.1, k))
        hir_raw.crates with
    | error e => rw [hcoll] at hpack; exact absurd hpack (by simp)
    | ok l =>
      obtain ⟨b, hb⟩ := (collectResults_isOk_iff _ hir_raw.crates).mp ⟨l, hcoll⟩ cr hcr
      cases hpc : pc config cr.2 cr.1 with
      | error e => rw [hpc] at hb; exact absurd hb (by simp)
      | ok k => exact ⟨k, rfl⟩

theorem parse_fails_fast_and_whole_witness :
    (∃ e, parse pcEx () { crates := [("a", false)] } = Except.error e) ∧
    (∀ cr ∈ ({ crates := [("a", true)] } : HirRawPack Bool).crates,
      ∃ k, pcEx () cr.2 cr.1 = Except.ok k) := by
  constructor
  · exact (parse_fails_fast_and_whole pcEx () { crates := [("a", false)] }).1
      ⟨("a", false), by simp, "bad", rfl⟩
  · exact (parse_fails_fast_and_whole pcEx () { crates := [("a", true)] }).2
      { crates := [("a", ())] } rfl

/-- C2: HIR resolution is deterministic — `parse` is a pure function of the
resolver configuration and the raw pack, so two invocations on equal inputs
return equal results (equal `HirPack` on success, the same failure
otherwise). -/
theorem parse_deterministic {γ σ κ : Type}
    (pc : γ → σ → String → Except String κ) (config₁ config₂ : γ)
    (raw₁ raw₂ : HirRawPack σ) (hc : config₁ = config₂) (hr : raw₁ = raw₂) :
    parse pc config₁ raw₁ = parse pc config₂ raw₂ := by
  subst hc
  subst hr
  rfl

theorem parse_deterministic_witness :
    parse pcEx () { crates := [("a", true)] } =
      parse pcEx () { crates := [("a", true)] } :=
  parse_deterministic pcEx () () { crates := [("a", true)] }
    { crates := [("a", true)] } rfl rfl

/-- C3: when `parse` succeeds, the returned `HirPack` maps exactly the crate
names of the input `HirRawPack`, in order and with multiplicity — one
resolved crate per input crate, none added or dropped. -/
theorem parse_preserves_crate_names {γ σ κ : Type}
    (pc : γ → σ → String → Except String κ) (config : γ)
    (hir_raw : HirRawPack σ) (pack : HirPack κ)
    (h : parse pc config hir_raw = Except.ok pack) :
    pack.crates.map Prod.fst = hir_raw.crates.map Prod.fst := by
  rw [parse] at h
  cases hcoll : collectResults
      (fun cr =>
        match pc config cr.2 cr.1 with
        | Except.error e => Except.error e
        | Except.ok k => Except.ok (cr.1, k))
      hir_raw.crates with
  | error e => rw [hcoll] at h; exact absurd h (by simp)
  | ok l =>
    rw [hcoll] at h
    cases h
    have hf2 := collectResults_forall2 _ hir_raw.crates l hcoll
    exact forall2_map_eq Prod.fst Prod.fst
      (fun a b hab => by
        cases hpc : pc config a.2 a.1 with
        | error e => rw [hpc] at hab; exact absurd hab (by simp)
        | ok k =>
          rw [hpc] at hab
          rw [← Except.ok.inj hab])
      hir_raw.crates l hf2

theorem parse_preserves_crate_names_witness :
    (HirPack.crates { crates := [("a", ())] }).map Prod.fst =
      (HirRawPack.crates ({ crates := [("a", true)] } : HirRawPack Bool)).map Prod.fst :=
  parse_preserves_crate_names pcEx () { crates := [("a", true)] }
    { crates := [("a", ())] } rfl

/-- C5: a cyclic chain of re-export edges (including a self-referential
one) makes resolution fail with `ResolutionError.CyclicReexport`, while an
acyclic `pub use` chain of any length resolves to the real target item,
regardless of the declaration order of the name table (any permutation of
the table with unique names gives the same result). -/
theorem pub_use_cycle_and_chain (env env' : List (String × ModuleEntry))
    (hperm : env.Perm env') (hkeys : (env.map Prod.fst).Nodup) :
    (∀ (cycle : List String) (n : String), cycle.Nodup → cycle.head? = some n →
      cycleLinks env n cycle →
      resolveReexport env [] n = Except.error ResolutionError.CyclicReexport) ∧
    (∀ (chain : List String) (it : HirItem) (n : String), chain.Nodup →
      chain.head? = some n → chainLinks env chain it →
      resolveReexport env' [] n = Except.ok it) := by
  constructor
  · intro cycle n hnd hhead hlinks
    cases cycle with
    | nil => simp at hhead
    | cons a tail =>
      have hn : a = n := by simpa using hhead
      subst hn
      have hna : a ∉ ([] : List String) := by simp
      cases tail with
      | nil =>
        have hl : lookupEntry env a = some (ModuleEntry.reexport a) := hlinks
        rw [resolveReexport_step env [] a hna, hl]
        exact resolveReexport_visited env [a] a (by simp)
      | cons b rest =>
        obtain ⟨hl, hrest⟩ := hlinks
        rw [resolveReexport_step env [] a hna, hl]
        apply resolveReexport_cycle_aux env (b :: rest) a [a] b
          (List.nodup_cons.mp hnd).2 hrest
        · intro x hx hxv
          have hxa : x = a := by simpa using hxv
          exact (List.nodup_cons.mp hnd).1 (hxa ▸ hx)
        · simp
        · rfl
  · intro chain it n hnd hhead hlinks
    have hlook : ∀ m, lookupEntry env m = lookupEntry env' m :=
      fun m => lookupEntry_perm env env' hperm m hkeys
    exact resolveReexport_chainLinks env' chain it [] n hnd
      (chainLinks_congr env env' hlook chain it hlinks) (by simp) hhead

theorem pub_use_cycle_and_chain_witness :
    resolveReexport envEx [] "a" = Except.error ResolutionError.CyclicReexport ∧
    resolveReexport envEx [] "x" = Except.ok { name := "real" } := by
  constructor
  · exact (pub_use_cycle_and_chain envEx envEx (List.Perm.refl envEx) (by decide)).1
      ["a", "b"] "a" (by decide) rfl ⟨rfl, rfl⟩
  · exact (pub_use_cycle_and_chain envEx envEx (List.Perm.refl envEx) (by decide)).2
      ["x", "y", "z"] { name := "real" } "x" (by decide) rfl ⟨rfl, rfl, rfl⟩

/-- C4: a collaborator invocation is failed exactly when its exit status is
non-success — `check_exit_code` returns `Ok` for a successful status and,
for a non-success status, returns an error carrying the process's stderr. -/
theorem check_exit_code_mirrors_status (res : Output) :
    (check_exit_code res = Except.ok () ↔ res.status.success = true) ∧
    (res.status.success = false →
      check_exit_code res = Except.error ("Command execution failed: " ++ res.stderr)) :=
  ⟨check_exit_code_ok_iff res, check_exit_code_err res⟩

theorem check_exit_code_mirrors_status_witness :
    check_exit_code { status := { success := false }, stdout := "", stderr := "boom" } =
      Except.error ("Command execution failed: " ++ "boom") :=
  (check_exit_code_mirrors_status
    { status := { success := false }, stdout := "", stderr := "boom" }).2 rfl

theorem path_to_string_ok_iff (p : MPath) :
    (∃ s, path_to_string p = Except.ok s) ↔ p ≠ MPath.invalid := by
  cases p <;> simp [path_to_string]

theorem normalize_ok_iff (nwup : String → String) (paths : List MPath) :
    (∃ out, normalize_windows_unc_paths nwup paths = Except.ok out) ↔
      ∀ p ∈ paths, p ≠ MPath.invalid := by
  rw [normalize_windows_unc_paths, collectResults_isOk_iff]
  constructor
  · intro h p hp
    obtain ⟨b, hb⟩ := h p hp
    cases p with
    | valid s => simp
    | invalid => rw [path_to_string] at hb; exact absurd hb (by simp)
  · intro h p hp
    cases hc : p with
    | valid s => exact ⟨MPath.valid (nwup s), by simp [path_to_string]⟩
    | invalid => exact absurd (hc ▸ h p hp) (by simp)

/-- C9: `normalize_windows_unc_paths` is element-wise — it succeeds exactly
when every input converts to a string, a success is the input list mapped
element-wise through UNC normalization (so same length, i-th output from
i-th input), and a failure implies some input was inconvertible. -/
theorem normalize_windows_unc_paths_elementwise (nwup : String → String)
    (paths : List MPath) :
    ((∃ out, normalize_windows_unc_paths nwup paths = Except.ok out) ↔
      ∀ p ∈ paths, p ≠ MPath.invalid) ∧
    (∀ out, normalize_windows_unc_paths nwup paths = Except.ok out →
      out = paths.map (normalize_one_path nwup) ∧ out.length = paths.length) ∧
    (∀ e, normalize_windows_unc_paths nwup paths = Except.error e →
      ∃ p ∈ paths, p = MPath.invalid) := by
  refine ⟨normalize_ok_iff nwup paths, ?_, ?_⟩
  · intro out hout
    have hall : ∀ p ∈ paths, p ≠ MPath.invalid :=
      (normalize_ok_iff nwup paths).mp ⟨out, hout⟩
    have hmap : normalize_windows_unc_paths nwup paths =
        Except.ok (paths.map (normalize_one_path nwup)) := by
      rw [normalize_windows_unc_paths]
      apply collectResults_ok_of_forall
      intro p hp
      cases hc : p with
      | valid s => simp [path_to_string, normalize_one_path]
      | invalid => exact absurd (hc ▸ hall p hp) (by simp)
    rw [hout] at hmap
    have := Except.ok.inj hmap
    subst this
    exact ⟨rfl, by simp⟩
  · intro e he
    by_contra hno
    push_neg at hno
    have hall : ∀ p ∈ paths, p ≠ MPath.invalid := hno
    obtain ⟨out, hout⟩ := (normalize_ok_iff nwup paths).mpr hall
    rw [he] at hout
    exact absurd hout (by simp)

theorem normalize_windows_unc_paths_elementwise_witness :
    [MPath.valid "X/a", MPath.valid "X/b"] =
        ([MPath.valid "/a", MPath.valid "/b"].map
          (normalize_one_path (fun s => "X" ++ s))) ∧
      ([MPath.valid "X/a", MPath.valid "X/b"] : List MPath).length =
        ([MPath.valid "/a", MPath.valid "/b"] : List MPath).length :=
  (normalize_windows_unc_paths_elementwise (fun s => "X" ++ s)
    [MPath.valid "/a", MPath.valid "/b"]).2.1
    [MPath.valid "X/a", MPath.valid "X/b"] rfl

theorem format_common (nwup : String → String) (dbgQuote : MPath → String)
    (isWindows : Bool) (spawn : Except String Output) (mode : Option ShellMode)
    (pre : List MPath) (path : List MPath) :
    (match normalize_windows_unc_paths nwup path with
      | Except.error e => Except.error e
      | Except.ok npath =>
        match (call_shell dbgQuote isWindows spawn (pre ++ npath) mode none).1 with
        | Except.error e => Except.error e
        | Except.ok res => check_exit_code res) = Except.ok () ↔
      ((∀ p ∈ path, p ≠ MPath.invalid) ∧
        ∃ o, spawn = Except.ok o ∧ o.status.success = true) := by
  cases hn : normalize_windows_unc_paths nwup path with
  | error e =>
    have hnall : ¬ ∀ p ∈ path, p ≠ MPath.invalid := by
      intro hall
      obtain ⟨out, hout⟩ := (normalize_ok_iff nwup path).mpr hall
      rw [hn] at hout
      exact absurd hout (by simp)
    simp [hnall]
  | ok npath =>
    have hall : ∀ p ∈ path, p ≠ MPath.invalid :=
      (normalize_ok_iff nwup path).mp ⟨npath, hn⟩
    cases spawn with
    | error e => simp [call_shell, execute_command]
    | ok o =>
      simp [call_shell, execute_command, hall, check_exit_code_ok_iff]
      intro _
      exact hall

/-- C6: each formatter wrapper mirrors the external tool's outcome — for
every path list, `format_dart` and `format_rust` return `Ok` exactly when
the spawned formatter process exits successfully (and the paths it was
given were convertible so that a process was spawned at all), and an error
otherwise; the `Ok` result carries nothing of the formatter's output. -/
theorem format_wrappers_mirror_exit (nwup : String → String)
    (dbgQuote : MPath → String) (isWindows : Bool) (spawn : Except String Output)
    (path : List MPath) (line_length : Nat) (shell_mode : Option ShellMode) :
    (format_dart nwup dbgQuote isWindows spawn path line_length shell_mode =
        Except.ok () ↔
      ((∀ p ∈ path, p ≠ MPath.invalid) ∧
        ∃ o, spawn = Except.ok o ∧ o.status.success = true)) ∧
    (format_rust nwup dbgQuote isWindows spawn path shell_mode = Except.ok () ↔
      ((∀ p ∈ path, p ≠ MPath.invalid) ∧
        ∃ o, spawn = Except.ok o ∧ o.status.success = true)) := by
  constructor
  · exact format_common nwup dbgQuote isWindows spawn shell_mode
      [MPath.valid "dart", MPath.valid "format", MPath.valid "--line-length",
        MPath.valid (toString line_length)] path
  · exact format_common nwup dbgQuote isWindows spawn shell_mode
      [MPath.valid "rustfmt", MPath.valid "--edition", MPath.valid "2018"] path

theorem format_wrappers_mirror_exit_witness :
    format_dart id (fun _ => "") false
        (Except.ok { status := { success := true }, stdout := "", stderr := "" })
        [MPath.valid "lib/a.dart"] 80 none = Except.ok () :=
  (format_wrappers_mirror_exit id (fun _ => "") false
      (Except.ok { status := { success := true }, stdout := "", stderr := "" })
      [MPath.valid "lib/a.dart"] 80 none).1.mpr
    ⟨by simp, ⟨{ status := { success := true }, stdout := "", stderr := "" }, rfl, rfl⟩⟩

/-- C7 counterexample: an invocation of `execute_command` whose working
directory cannot be converted to a string launches the external process
zero times, not exactly once — refuting "for every invocation,
`execute_command` launches the external process exactly once". -/
theorem execute_command_zero_launches_counterexample :
    (execute_command
        (Except.ok { status := { success := true }, stdout := "", stderr := "" })
        "rustfmt" [] (some MPath.invalid)).2 = 0 := rfl

/-- C7 (amended): `execute_command` launches the external process at most
once — exactly once whenever the working directory (if any) converts to a
string, and zero times when that conversion fails; in particular a failing
command is never re-run. -/
theorem execute_command_launches_at_most_once (spawn : Except String Output)
    (bin : String) (args : List MPath) (current_dir : Option MPath) :
    (execute_command spawn bin args current_dir).2 ≤ 1 ∧
    ((∀ d, current_dir = some d → d ≠ MPath.invalid) →
      (execute_command spawn bin args current_dir).2 = 1) := by
  cases current_dir with
  | none => cases spawn <;> simp [execute_command]
  | some d =>
    cases d with
    | valid s => cases spawn <;> simp [execute_command, path_to_string]
    | invalid =>
      constructor
      · simp [execute_command, path_to_string]
      · intro h
        exact absurd rfl (h MPath.invalid rfl)

theorem execute_command_launches_at_most_once_witness :
    (execute_command
        (Except.error "spawn failure") "rustfmt" [] (some (MPath.valid "/tmp"))).2 = 1 :=
  (execute_command_launches_at_most_once (Except.error "spawn failure") "rustfmt" []
    (some (MPath.valid "/tmp"))).2
    (fun d hd => by cases hd; simp)

/-- C8: `execute_command` returns `Ok` carrying the process `Output` exactly
when the working-directory path (if any) converts to a string and the
process could be launched — regardless of the exit status, which is only
logged; so command-level failure detection is delegated to
`check_exit_code`. -/
theorem execute_command_ok_iff (spawn : Except String Output) (bin : String)
    (args : List MPath) (current_dir : Option MPath) (out : Output) :
    (execute_command spawn bin args current_dir).1 = Except.ok out ↔
      ((∀ d, current_dir = some d → d ≠ MPath.invalid) ∧ spawn = Except.ok out) := by
  cases current_dir with
  | none => cases spawn <;> simp [execute_command]
  | some d =>
    cases d with
    | valid s => cases spawn <;> simp [execute_command, path_to_string]
    | invalid =>
      simp only [execute_command, path_to_string]
      constructor
      · intro h
        exact absurd h (by simp)
      · intro ⟨hd, _⟩
        exact absurd rfl (hd MPath.invalid rfl)

theorem execute_command_ok_iff_witness :
    (execute_command
        (Except.ok { status := { success := false }, stdout := "", stderr := "err" })
        "dart" [] none).1 =
      Except.ok { status := { success := false }, stdout := "", stderr := "err" } :=
  (execute_command_ok_iff
      (Except.ok { status := { success := false }, stdout := "", stderr := "err" })
      "dart" [] none
      { status := { success := false }, stdout := "", stderr := "err" }).mpr
    ⟨fun d hd => Option.noConfusion hd, rfl⟩

/-- C10 counterexample: in Powershell mode the single command argument after
`-command` is not the Debug-quoted, space-joined command string itself but
that string prefixed with the call operator `& ` — refuting "in every mode
the joined string is passed as the single command argument after the
shell's flag". -/
theorem shell_invocation_powershell_counterexample :
    (shell_invocation
        (fun p => match p with
          | MPath.valid s => "\"" ++ s ++ "\""
          | MPath.invalid => "\"\"")
        true [MPath.valid "p"] (some ShellMode.Powershell)).2 =
      ["-noprofile", "-command", "& \"p\""] ∧
    ("& \"p\"" : String) ≠ "\"p\"" := by
  constructor
  · rfl
  · decide

/-- C10 (amended): `call_shell` selects the shell deterministically — an
explicit mode always wins, a missing mode defaults to Powershell on Windows
and Sh elsewhere — and in every mode the command words are Debug-quoted and
space-joined into one string passed as the single command argument after
the shell's flag (`-command` for Powershell, `/c` for Cmd, `-c` for Sh),
except that in Powershell mode that argument is the joined string prefixed
with the call operator `& ` (and preceded by `-noprofile`). -/
theorem call_shell_mode_and_quoting (dbgQuote : MPath → String)
    (isWindows : Bool) (spawn : Except String Output) (cmd : List MPath)
    (mode : Option ShellMode) (pwd : Option MPath) :
    (shell_invocation dbgQuote isWindows cmd (some ShellMode.Powershell) =
      ("powershell", ["-noprofile", "-command",
        "& " ++ String.intercalate " " (cmd.map dbgQuote)])) ∧
    (shell_invocation dbgQuote isWindows cmd (some ShellMode.Cmd) =
      ("cmd", ["/c", String.intercalate " " (cmd.map dbgQuote)])) ∧
    (shell_invocation dbgQuote isWindows cmd (some ShellMode.Sh) =
      ("sh", ["-c", String.intercalate " " (cmd.map dbgQuote)])) ∧
    (shell_invocation dbgQuote isWindows cmd none =
      shell_invocation dbgQuote isWindows cmd
        (some (if isWindows then ShellMode.Powershell else ShellMode.Sh))) ∧
    (call_shell dbgQuote isWindows spawn cmd mode pwd =
      execute_command spawn (shell_invocation dbgQuote isWindows cmd mode).1
        ((shell_invocation dbgQuote isWindows cmd mode).2.map MPath.valid) pwd) := by
  refine ⟨rfl, rfl, rfl, ?_, rfl⟩
  cases isWindows <;> rfl

theorem call_shell_mode_and_quoting_witness :
    shell_invocation to_string_lossy false [MPath.valid "p"] none =
      shell_invocation to_string_lossy false [MPath.valid "p"]
        (some (if False then ShellMode.Powershell else ShellMode.Sh)) := by
  have h := (call_shell_mode_and_quoting to_string_lossy false
    (Except.error "") [MPath.valid "p"] none none).2.2.2.1
  simpa using h
